import Mathlib

/-!
Shallow embedding of the MLM affiliate backend (an Express application with
in-memory `users` / `clicks` / `orders` / `commissions` lists).

The embedding covers the state-mutating handlers — `POST /auth/signup`,
`GET /click/:code`, `POST /order` — and the `buildUpline` /
`findUserByCode` helpers the order handler uses.  The read-only handlers
(`GET /`, `POST /auth/login`, `GET /me`, `GET /stats/:code`,
`GET /me/stats`) never write to the shared lists and are modelled as a
single state-preserving request.

Modelling conventions:
* JS numbers are modelled as exact rationals (`ℚ`); `NaN` is not modelled.
* Nullable / possibly-absent request fields are `Option` values, and JS
  truthiness is modelled explicitly: `null`/absent, the empty string and
  the number `0` are falsy.
* `bcrypt.hash` and `nanoid()` results are environment-supplied parameters
  of the signup request; timestamps (`new Date()`) are a `now : Nat`
  parameter.
-/

namespace MLM

/-- A record of the in-memory `users` list:
`{ id, name, email, passwordHash, code, referrerCode, createdAt }`. -/
structure User where
  id : Nat
  name : String
  email : String
  passwordHash : String
  code : String
  referrerCode : Option String
  createdAt : Nat
deriving DecidableEq

/-- A record of the `clicks` list: `{ code, timestamp, ip }`. -/
structure Click where
  code : String
  timestamp : Nat
  ip : String
deriving DecidableEq

/-- A record of the `orders` list:
`{ id, amount, code, buyerEmail, createdAt }`. -/
structure Order where
  id : Nat
  amount : ℚ
  code : String
  buyerEmail : Option String
  createdAt : Nat
deriving DecidableEq

/-- A record of the `commissions` list:
`{ orderId, earnerUserId, level, percent, amount }`. -/
structure Commission where
  orderId : Nat
  earnerUserId : Nat
  level : Nat
  percent : ℚ
  amount : ℚ
deriving DecidableEq

/-- An entry of the `payouts` array returned by `POST /order`:
`{ userId, level, amount }`. -/
structure Payout where
  userId : Nat
  level : Nat
  amount : ℚ
deriving DecidableEq

/-- `const COMMISSION_LEVELS = [0.10, 0.05, 0.02]; // L1, L2, L3` -/
def COMMISSION_LEVELS : List ℚ := [0.10, 0.05, 0.02]

/-- The four shared in-memory lists. -/
structure AppState where
  users : List User
  clicks : List Click
  orders : List Order
  commissions : List Commission
deriving DecidableEq

/-- All lists start empty. -/
def initialState : AppState := ⟨[], [], [], []⟩

/-- JS truthiness of a nullable string: `null`/absent and `""` are falsy. -/
def strTruthy : Option String → Bool
  | none => false
  | some s => s != ""

/-- JS truthiness of a nullable number: `null`/absent and `0` are falsy
(`NaN`, also falsy in JS, is outside the rational model). -/
def numTruthy : Option ℚ → Bool
  | none => false
  | some a => a != 0

/-- The JS idiom `x || null` on a nullable string value: collapses the
falsy values (`null`/absent, `""`) to `null`. -/
def orNull : Option String → Option String
  | none => none
  | some s => if s = "" then none else some s

/-- `users.find(u => u.code === code)` — first user with the given
referral code, if any. -/
def findUserByCode (users : List User) (code : String) : Option User :=
  users.find? (fun u => u.code == code)

/-- `buildUpline(refCode, levels)`: walk the referrer chain starting at
`refCode` for at most `levels` iterations, stopping on a falsy current
code (`if (!currentCode) break`) or an unresolvable one
(`if (!referrer) break`); each resolved referrer is pushed and the walk
continues from `referrer.referrerCode || null`. -/
def buildUpline (users : List User) : Option String → Nat → List User
  | _, 0 => []
  | refCode, n + 1 =>
    match orNull refCode with
    | none => []
    | some c =>
      match findUserByCode users c with
      | none => []
      | some referrer => referrer :: buildUpline users referrer.referrerCode n

/-- Body of a `POST /order` request: `{ amount, code, buyerEmail }`,
each field possibly absent. -/
structure OrderReq where
  amount : Option ℚ
  code : Option String
  buyerEmail : Option String
deriving DecidableEq

/-- Response of `POST /order`: `400` (`amount & code required`),
`404` (`Referral code not found`), or `200` with
`{ orderId, amount, code, payouts }`. -/
inductive OrderResp where
  | badRequest
  | notFound
  | ok (orderId : Nat) (amount : ℚ) (code : String) (payouts : List Payout)
deriving DecidableEq

/-- The `upline.forEach((uplineUser, idx) => ...)` loop of `POST /order`:
for index `idx` the level is `idx + 2`, the percent is
`COMMISSION_LEVELS[idx + 1] ?? 0`, and a commission/payout pair is pushed
only when `amt > 0`. -/
def uplineEntries (orderId : Nat) (orderAmount : ℚ) (upline : List User) :
    List (Commission × Payout) :=
  upline.enum.filterMap (fun p =>
    let idx := p.1
    let uplineUser := p.2
    let level := idx + 2
    let percent := COMMISSION_LEVELS.getD (idx + 1) 0
    let amt := orderAmount * percent
    if 0 < amt then
      some (⟨orderId, uplineUser.id, level, percent, amt⟩,
            ⟨uplineUser.id, level, amt⟩)
    else none)

/-- The `POST /order` handler: validate (`400` if `!amount || !code`),
resolve the code owner (`404` if none), append the order, build the
upline with `COMMISSION_LEVELS.length` as the level cap, push the
level-1 commission for the owner when `l1Amount > 0`, then the upline
commissions, and answer `200` with the payout list. -/
def postOrder (st : AppState) (req : OrderReq) (now : Nat) :
    OrderResp × AppState :=
  if !numTruthy req.amount || !strTruthy req.code then
    (.badRequest, st)
  else
    let a := req.amount.getD 0
    let c := req.code.getD ""
    match findUserByCode st.users c with
    | none => (.notFound, st)
    | some owner =>
      let order : Order :=
        ⟨st.orders.length + 1, a, c, orNull req.buyerEmail, now⟩
      let upline := buildUpline st.users owner.referrerCode COMMISSION_LEVELS.length
      let l1Percent := COMMISSION_LEVELS.getD 0 0
      let l1Amount := a * l1Percent
      let l1Comms : List Commission :=
        if 0 < l1Amount then [⟨order.id, owner.id, 1, l1Percent, l1Amount⟩] else []
      let l1Payouts : List Payout :=
        if 0 < l1Amount then [⟨owner.id, 1, l1Amount⟩] else []
      let entries := uplineEntries order.id a upline
      (.ok order.id a c (l1Payouts ++ entries.map Prod.snd),
       { st with
           orders := st.orders ++ [order],
           commissions := st.commissions ++ (l1Comms ++ entries.map Prod.fst) })

/-- The `POST /auth/signup` handler: `400` when name, email or password is
falsy, `409` when the email exists, otherwise append a user with
`id = users.length + 1` and `referrerCode: ref || null`.  The bcrypt hash
and the nanoid-generated code come from the environment. -/
def signup (st : AppState) (name email password ref : Option String)
    (passwordHash code : String) (now : Nat) : AppState :=
  if !strTruthy email || !strTruthy password || !strTruthy name then st
  else if st.users.any (fun u => u.email == email.getD "") then st
  else
    { st with
        users := st.users ++
          [⟨st.users.length + 1, name.getD "", email.getD "", passwordHash,
            code, orNull ref, now⟩] }

/-- The `GET /click/:code` handler: `404` when the code resolves to no
user, otherwise append a click record. -/
def recordClick (st : AppState) (code : String) (ip : String) (now : Nat) :
    AppState :=
  match findUserByCode st.users code with
  | none => st
  | some _ => { st with clicks := st.clicks ++ [⟨code, now, ip⟩] }

/-- One incoming HTTP request.  `readOnly` stands for the handlers that
never write the shared lists (`GET /`, `POST /auth/login`, `GET /me`,
`GET /stats/:code`, `GET /me/stats`). -/
inductive Request where
  | signup (name email password ref : Option String)
      (passwordHash code : String) (now : Nat)
  | click (code ip : String) (now : Nat)
  | order (req : OrderReq) (now : Nat)
  | readOnly

/-- State transition of one request. -/
def step (st : AppState) : Request → AppState
  | .signup n e p r h c now => signup st n e p r h c now
  | .click c ip now => recordClick st c ip now
  | .order req now => (postOrder st req now).2
  | .readOnly => st

/-- The state reached from the empty initial state by a request sequence. -/
def run (reqs : List Request) : AppState :=
  reqs.foldl step initialState

/-! ### Concrete example data -/

/-- Example user A: code `"AAA"`, no referrer. -/
def userA : User := ⟨1, "A", "a@example.com", "h1", "AAA", none, 0⟩

/-- Example user B: code `"BBB"`, referred by `"AAA"`. -/
def userB : User := ⟨2, "B", "b@example.com", "h2", "BBB", some "AAA", 0⟩

/-- Example user C: code `"CCC"`, referred by `"BBB"`. -/
def userC : User := ⟨3, "C", "c@example.com", "h3", "CCC", some "BBB", 0⟩

/-- Example user D: code `"DDD"`, referred by `"CCC"` — the owner of a
depth-3 referrer chain D → C → B → A. -/
def userD : User := ⟨4, "D", "d@example.com", "h4", "DDD", some "CCC", 0⟩

/-- Example user S: code `"SSS"`, listing itself as its own referrer. -/
def userS : User := ⟨7, "S", "s@example.com", "h7", "SSS", some "SSS", 0⟩

/-- Example user E: code `"EEE"`, whose referrer code `"ZZZ"` resolves to
no user (broken chain). -/
def userE : User := ⟨5, "E", "e@example.com", "h5", "EEE", some "ZZZ", 0⟩

/-- A directory holding the chain A ← B ← C ← D, the self-referrer S and
the broken-chain user E; no clicks, orders or commissions yet. -/
def exState : AppState := ⟨[userA, userB, userC, userD, userS, userE], [], [], []⟩

/-- A request sequence: sign user A up (no referrer), then place an order
of amount 100 on A's code. -/
def exReqs : List Request :=
  [.signup (some "A") (some "a@example.com") (some "pw") none "h1" "AAA" 0,
   .order ⟨some 100, some "AAA", none⟩ 1]

/-! ### Helper lemmas -/

/-- The upline walk never returns more entries than its iteration cap. -/
theorem buildUpline_length_le (users : List User) :
    ∀ (refCode : Option String) (n : Nat),
      (buildUpline users refCode n).length ≤ n := by
  intro refCode n
  induction n generalizing refCode with
  | zero => simp [buildUpline]
  | succ n ih =>
    unfold buildUpline
    cases horn : orNull refCode with
    | none => simp
    | some c =>
      cases hf : findUserByCode users c with
      | none => simp [hf]
      | some r =>
        simp only [hf, List.length_cons]
        exact Nat.succ_le_succ (ih r.referrerCode)

/-- Every commission/payout pair pushed by the `upline.forEach` loop has a
positive amount (the push is guarded by `amt > 0`). -/
theorem uplineEntries_amount_pos (orderId : Nat) (a : ℚ) (upline : List User) :
    ∀ cp ∈ uplineEntries orderId a upline, 0 < cp.1.amount ∧ 0 < cp.2.amount := by
  intro cp hcp
  simp only [uplineEntries, List.mem_filterMap] at hcp
  obtain ⟨p, -, hp⟩ := hcp
  split at hp
  case isTrue h =>
    obtain rfl := Option.some.inj hp
    exact ⟨h, h⟩
  case isFalse h => exact absurd hp (by simp)

/-- `POST /auth/signup` never writes the commission log. -/
theorem signup_commissions (st : AppState) (n e p r : Option String)
    (h cd : String) (now : Nat) :
    (signup st n e p r h cd now).commissions = st.commissions := by
  unfold signup
  split
  · rfl
  · split <;> rfl

/-- `GET /click/:code` never writes the commission log. -/
theorem recordClick_commissions (st : AppState) (cd ip : String) (now : Nat) :
    (recordClick st cd ip now).commissions = st.commissions := by
  unfold recordClick
  split <;> rfl

/-- Explicit value of `POST /order` on its success path: present nonzero
amount, present nonempty code resolving to `owner`. -/
theorem postOrder_ok_eq (st : AppState) (req : OrderReq) (now : Nat)
    (a : ℚ) (c : String) (owner : User)
    (hamt : req.amount = some a) (ha : a ≠ 0)
    (hcode : req.code = some c) (hc : c ≠ "")
    (hfind : findUserByCode st.users c = some owner) :
    postOrder st req now =
      (OrderResp.ok (st.orders.length + 1) a c
        ((if 0 < a * (0.10 : ℚ) then [⟨owner.id, 1, a * 0.10⟩] else []) ++
         (uplineEntries (st.orders.length + 1) a
            (buildUpline st.users owner.referrerCode 3)).map Prod.snd),
       { st with
           orders := st.orders ++
             [⟨st.orders.length + 1, a, c, orNull req.buyerEmail, now⟩],
           commissions := st.commissions ++
             ((if 0 < a * (0.10 : ℚ) then
                 [⟨st.orders.length + 1, owner.id, 1, 0.10, a * 0.10⟩]
               else []) ++
              (uplineEntries (st.orders.length + 1) a
                 (buildUpline st.users owner.referrerCode 3)).map Prod.fst) }) := by
  unfold postOrder
  rw [hamt, hcode, if_neg (by simp [numTruthy, strTruthy, ha, hc])]
  simp only [Option.getD_some, hfind]
  rfl

/-- `POST /order` preserves positivity of all logged commission amounts:
both the level-1 push and the upline pushes are guarded by `> 0`. -/
theorem postOrder_commissions_pos (st : AppState) (req : OrderReq) (now : Nat)
    (h : ∀ c ∈ st.commissions, 0 < c.amount) :
    ∀ c ∈ (postOrder st req now).2.commissions, 0 < c.amount := by
  intro c hc
  unfold postOrder at hc
  split at hc
  · exact h c hc
  · dsimp only at hc
    split at hc
    · exact h c hc
    · simp only [List.mem_append] at hc
      rcases hc with hc | hc | hc
      · exact h c hc
      · revert hc
        split
        case isTrue hpos =>
          intro hc
          obtain rfl := List.mem_singleton.mp hc
          exact hpos
        case isFalse hpos => intro hc; exact absurd hc (by simp)
      · simp only [List.mem_map] at hc
        obtain ⟨cp, hcp, rfl⟩ := hc
        exact (uplineEntries_amount_pos _ _ _ cp hcp).1

/-- Any single request preserves positivity of all logged commission
amounts. -/
theorem step_commissions_pos (st : AppState) (r : Request)
    (h : ∀ c ∈ st.commissions, 0 < c.amount) :
    ∀ c ∈ (step st r).commissions, 0 < c.amount := by
  cases r with
  | signup n e p rf hsh cd now =>
    intro c hc
    rw [step, signup_commissions] at hc
    exact h c hc
  | click cd ip now =>
    intro c hc
    rw [step, recordClick_commissions] at hc
    exact h c hc
  | order req now => exact postOrder_commissions_pos st req now h
  | readOnly => exact h

/-- One resolved step of the upline walk. -/
theorem buildUpline_cons (users : List User) (refCode : Option String)
    (n : Nat) (c : String) (u : User)
    (h1 : orNull refCode = some c) (h2 : findUserByCode users c = some u) :
    buildUpline users refCode (n + 1) = u :: buildUpline users u.referrerCode n := by
  simp only [buildUpline, h1, h2]

/-- The upline loop pushes nothing for an empty upline. -/
theorem uplineEntries_nil (oid : Nat) (a : ℚ) : uplineEntries oid a [] = [] := rfl

/-- For a positive amount, a one-member upline yields the single level-2
entry at percent `0.05`. -/
theorem uplineEntries_single (oid : Nat) (a : ℚ) (u1 : User) (hpos : 0 < a) :
    uplineEntries oid a [u1] =
      [(⟨oid, u1.id, 2, 0.05, a * 0.05⟩, ⟨u1.id, 2, a * 0.05⟩)] := by
  have h1 : (0 : ℚ) < a * 0.05 := by nlinarith
  simp [uplineEntries, List.enum, List.enumFrom, COMMISSION_LEVELS, h1]

/-- For a positive amount, a two-member upline yields the level-2 and
level-3 entries at percents `0.05` and `0.02`. -/
theorem uplineEntries_pair (oid : Nat) (a : ℚ) (u1 u2 : User) (hpos : 0 < a) :
    uplineEntries oid a [u1, u2] =
      [(⟨oid, u1.id, 2, 0.05, a * 0.05⟩, ⟨u1.id, 2, a * 0.05⟩),
       (⟨oid, u2.id, 3, 0.02, a * 0.02⟩, ⟨u2.id, 3, a * 0.02⟩)] := by
  have h1 : (0 : ℚ) < a * 0.05 := by nlinarith
  have h2 : (0 : ℚ) < a * 0.02 := by nlinarith
  simp [uplineEntries, List.enum, List.enumFrom, COMMISSION_LEVELS, h1, h2]

/-- A third upline member falls outside the schedule
(`COMMISSION_LEVELS[3] ?? 0` is `0`), so its `amt > 0` guard fails and it
is never pushed. -/
theorem uplineEntries_triple (oid : Nat) (a : ℚ) (u1 u2 u3 : User)
    (hpos : 0 < a) :
    uplineEntries oid a [u1, u2, u3] =
      [(⟨oid, u1.id, 2, 0.05, a * 0.05⟩, ⟨u1.id, 2, a * 0.05⟩),
       (⟨oid, u2.id, 3, 0.02, a * 0.02⟩, ⟨u2.id, 3, a * 0.02⟩)] := by
  have h1 : (0 : ℚ) < a * 0.05 := by nlinarith
  have h2 : (0 : ℚ) < a * 0.02 := by nlinarith
  simp [uplineEntries, List.enum, List.enumFrom, COMMISSION_LEVELS, h1, h2]

/-- Positivity of all logged commission amounts is preserved along any
request sequence. -/
theorem foldl_step_commissions_pos (reqs : List Request) :
    ∀ (st : AppState), (∀ c ∈ st.commissions, 0 < c.amount) →
      ∀ c ∈ (reqs.foldl step st).commissions, 0 < c.amount := by
  induction reqs with
  | nil => intro st h; simpa using h
  | cons r rs ih =>
    intro st h
    exact ih (step st r) (step_commissions_pos st r h)

/-! ### Claims -/

/-- Claim C1, counterexample: in the A ← B ← C ← D directory, the order
handler's call for an order attributed to `"DDD"` is
`buildUpline(users, userD.referrerCode, COMMISSION_LEVELS.length)`, and it
returns 3 entries (C, B, A) — more than `levels − 1 = 2`.  The walk is
capped at `levels` entries, not `levels − 1`. -/
theorem buildUpline_handler_three_entries :
    findUserByCode exState.users "DDD" = some userD ∧
    (buildUpline exState.users userD.referrerCode COMMISSION_LEVELS.length).length = 3 := by
  constructor <;> rfl

/-- Claim C1 (amended): the upline walk stops when the current referrer
code is null/absent (or empty, which JS treats as falsy), when it fails to
resolve to any user, or when the upline list has reached `levels` entries
(levels = length of the commission schedule); hence the list returned by
`buildUpline` when called from the order handler has at most `levels`
(= 3 for the 3-level schedule) entries. -/
theorem buildUpline_stop_conditions :
    (∀ (users : List User) (refCode : Option String) (n : Nat),
        orNull refCode = none → buildUpline users refCode (n + 1) = []) ∧
    (∀ (users : List User) (refCode : Option String) (n : Nat) (c : String),
        orNull refCode = some c → findUserByCode users c = none →
        buildUpline users refCode (n + 1) = []) ∧
    (∀ (users : List User) (refCode : Option String),
        (buildUpline users refCode COMMISSION_LEVELS.length).length ≤
          COMMISSION_LEVELS.length) := by
  refine ⟨?_, ?_, ?_⟩
  · intro users refCode n h
    simp only [buildUpline, h]
  · intro users refCode n c h1 h2
    simp only [buildUpline, h1, h2]
  · intro users refCode
    exact buildUpline_length_le users refCode _

/-- Claim C1 witness: the walk from user E's broken referrer code `"ZZZ"`
stops at once. -/
theorem buildUpline_stop_conditions_witness :
    buildUpline exState.users (some "ZZZ") 3 = [] :=
  buildUpline_stop_conditions.2.1 exState.users (some "ZZZ") 2 "ZZZ" rfl rfl

/-- Claim C2, counterexample: with the spec's A ← B ← C directory, the
request `{amount: -100, code: "CCC"}` passes validation (`-100` is truthy)
and the order succeeds, the owner's referrer chain has length 2, yet the
payouts array is empty — every candidate amount is negative, so every
`> 0` push guard fails — rather than having 3 entries. -/
theorem postOrder_chain2_negative_amount :
    (postOrder exState ⟨some (-100), some "CCC", none⟩ 0).1 =
      OrderResp.ok 1 (-100) "CCC" [] := by
  rw [postOrder_ok_eq exState ⟨some (-100), some "CCC", none⟩ 0 (-100) "CCC"
        userC rfl (by norm_num) rfl (by decide) rfl]
  rw [buildUpline_cons exState.users userC.referrerCode 2 "BBB" userB rfl rfl,
      buildUpline_cons exState.users userB.referrerCode 1 "AAA" userA rfl rfl]
  rw [if_neg (by norm_num : ¬ ((0 : ℚ) < (-100) * 0.10))]
  have e1 : ¬ ((0 : ℚ) < (-100) * 0.05) := by norm_num
  have e2 : ¬ ((0 : ℚ) < (-100) * 0.02) := by norm_num
  norm_num [uplineEntries, List.enum, List.enumFrom, COMMISSION_LEVELS,
    buildUpline, userA, exState, e1, e2]

/-- Claim C2 (amended): for every successful order of positive amount whose
code owner has a referrer chain of length at least 2 (each code resolving
to a distinct user), the payouts array has exactly 3 entries with levels
1, 2, 3 and percents 0.10, 0.05, 0.02 applied in that order. -/
theorem postOrder_chain2_payouts (st : AppState) (req : OrderReq) (now : Nat)
    (a : ℚ) (c c1 c2 : String) (owner u1 u2 : User)
    (hamt : req.amount = some a) (hpos : 0 < a)
    (hcode : req.code = some c) (hc : c ≠ "")
    (hfind : findUserByCode st.users c = some owner)
    (h1 : orNull owner.referrerCode = some c1)
    (hf1 : findUserByCode st.users c1 = some u1)
    (h2 : orNull u1.referrerCode = some c2)
    (hf2 : findUserByCode st.users c2 = some u2)
    (hdist : owner ≠ u1 ∧ owner ≠ u2 ∧ u1 ≠ u2) :
    (postOrder st req now).1 =
      OrderResp.ok (st.orders.length + 1) a c
        [⟨owner.id, 1, a * 0.10⟩, ⟨u1.id, 2, a * 0.05⟩, ⟨u2.id, 3, a * 0.02⟩] := by
  rw [postOrder_ok_eq st req now a c owner hamt hpos.ne' hcode hc hfind]
  rw [buildUpline_cons st.users owner.referrerCode 2 c1 u1 h1 hf1,
      buildUpline_cons st.users u1.referrerCode 1 c2 u2 h2 hf2]
  have hlen := buildUpline_length_le st.users u2.referrerCode 1
  rw [if_pos (by nlinarith : (0 : ℚ) < a * 0.10)]
  cases hrest : buildUpline st.users u2.referrerCode 1 with
  | nil => simp [uplineEntries_pair _ a u1 u2 hpos]
  | cons u3 t =>
    rw [hrest] at hlen
    simp only [List.length_cons] at hlen
    have ht : t = [] := List.length_eq_zero.mp (by omega)
    subst ht
    simp [uplineEntries_triple _ a u1 u2 u3 hpos]

/-- Claim C2 witness: the spec scenario — users A (`"AAA"`, no referrer),
B (`"BBB"`, referrer `"AAA"`), C (`"CCC"`, referrer `"BBB"`); an order of
amount 100 attributed to `"CCC"` yields payouts
`[{C,1,10},{B,2,5},{A,3,2}]`. -/
theorem postOrder_chain2_payouts_witness :
    (postOrder exState ⟨some 100, some "CCC", none⟩ 5).1 =
      OrderResp.ok 1 100 "CCC" [⟨3, 1, 10⟩, ⟨2, 2, 5⟩, ⟨1, 3, 2⟩] := by
  have h := postOrder_chain2_payouts exState ⟨some 100, some "CCC", none⟩ 5
    100 "CCC" "BBB" "AAA" userC userB userA rfl (by norm_num) rfl
    (by decide) rfl rfl rfl rfl rfl ⟨by decide, by decide, by decide⟩
  have e1 : (100 : ℚ) * 0.10 = 10 := by norm_num
  have e2 : (100 : ℚ) * 0.05 = 5 := by norm_num
  have e3 : (100 : ℚ) * 0.02 = 2 := by norm_num
  simpa [exState, userA, userB, userC, e1, e2, e3] using h

/-- Claim C3: referral cycles are not detected — for a user `U` whose
`referrerCode` equals `U`'s own code, a successful order of positive
amount attributed to `U`'s code pays `U` at levels 1, 2 and 3 (10%, 5%
and 2% of the amount), all with `U`'s userId, until the 3-level cap is
hit. -/
theorem postOrder_self_referral (st : AppState) (req : OrderReq) (now : Nat)
    (a : ℚ) (c : String) (U : User)
    (hamt : req.amount = some a) (hpos : 0 < a)
    (hcode : req.code = some c) (hc : c ≠ "")
    (hfind : findUserByCode st.users c = some U)
    (hself : U.referrerCode = some U.code) :
    (postOrder st req now).1 =
      OrderResp.ok (st.orders.length + 1) a c
        [⟨U.id, 1, a * 0.10⟩, ⟨U.id, 2, a * 0.05⟩, ⟨U.id, 3, a * 0.02⟩] := by
  have hUc : U.code = c := by
    have h := List.find?_some hfind
    simpa using h
  have hstep : orNull U.referrerCode = some c := by
    rw [hself, hUc]
    simp [orNull, hc]
  rw [postOrder_ok_eq st req now a c U hamt hpos.ne' hcode hc hfind]
  rw [buildUpline_cons st.users U.referrerCode 2 c U hstep hfind,
      buildUpline_cons st.users U.referrerCode 1 c U hstep hfind,
      buildUpline_cons st.users U.referrerCode 0 c U hstep hfind]
  rw [if_pos (by nlinarith : (0 : ℚ) < a * 0.10)]
  simp [buildUpline, uplineEntries_triple _ a U U U hpos]

/-- Claim C3 witness: the self-referrer S (code `"SSS"`, referrer
`"SSS"`) earns 10, 5 and 2 on an order of amount 100, at levels 1, 2
and 3. -/
theorem postOrder_self_referral_witness :
    (postOrder exState ⟨some 100, some "SSS", none⟩ 9).1 =
      OrderResp.ok 1 100 "SSS" [⟨7, 1, 10⟩, ⟨7, 2, 5⟩, ⟨7, 3, 2⟩] := by
  have h := postOrder_self_referral exState ⟨some 100, some "SSS", none⟩ 9
    100 "SSS" userS rfl (by norm_num) rfl (by decide) rfl rfl
  have e1 : (100 : ℚ) * 0.10 = 10 := by norm_num
  have e2 : (100 : ℚ) * 0.05 = 5 := by norm_num
  have e3 : (100 : ℚ) * 0.02 = 2 := by norm_num
  simpa [exState, userS, e1, e2, e3] using h

/-- Claim C4, counterexample: the request `{amount: 0, code: "AAA"}`
carries a present referral code and a present numeric amount, yet
`POST /order` answers 400, because the JS validation `!amount` treats the
number `0` as missing. -/
theorem postOrder_zero_amount_badRequest :
    (postOrder exState ⟨some 0, some "AAA", none⟩ 0).1 = OrderResp.badRequest ∧
    (⟨some 0, some "AAA", none⟩ : OrderReq).amount = some 0 := by
  constructor
  · unfold postOrder
    rw [if_pos (by norm_num [numTruthy])]
  · rfl

/-- Claim C4 (amended): `POST /order` responds 400 if and only if the
request's amount or code is JS-falsy — absent, or the number `0`, or the
empty string; in particular a present amount of `0` is also answered
400, though it is present and numeric. -/
theorem postOrder_badRequest_iff (st : AppState) (req : OrderReq) (now : Nat) :
    (postOrder st req now).1 = OrderResp.badRequest ↔
      (numTruthy req.amount = false ∨ strTruthy req.code = false) := by
  unfold postOrder
  split
  case isTrue h =>
    simp only [true_iff]
    simpa using h
  case isFalse h =>
    simp only [Bool.or_eq_true_iff, Bool.not_eq_true'] at h
    push_neg at h
    dsimp only
    split
    · simp [h.1, h.2]
    · simp [h.1, h.2]

/-- Claim C5: for every valid order (present, numeric, positive amount
and a nonempty code resolving to a user), the level-1 payout amount
equals `orderAmount × 0.10` exactly, and its userId is the id of the
user owning the order's referral code. -/
theorem postOrder_level1_payout (st : AppState) (req : OrderReq) (now : Nat)
    (a : ℚ) (c : String) (owner : User)
    (hamt : req.amount = some a) (hpos : 0 < a)
    (hcode : req.code = some c) (hc : c ≠ "")
    (hfind : findUserByCode st.users c = some owner) :
    ∃ rest, (postOrder st req now).1 =
      OrderResp.ok (st.orders.length + 1) a c (⟨owner.id, 1, a * 0.10⟩ :: rest) := by
  rw [postOrder_ok_eq st req now a c owner hamt hpos.ne' hcode hc hfind]
  rw [if_pos (by nlinarith : (0 : ℚ) < a * 0.10)]
  exact ⟨_, rfl⟩

/-- Claim C5 witness: an order of amount 30 on `"AAA"` opens with the
level-1 payout `{userId 1, level 1, amount 3}`. -/
theorem postOrder_level1_payout_witness :
    ∃ rest, (postOrder exState ⟨some 30, some "AAA", none⟩ 2).1 =
      OrderResp.ok 1 30 "AAA" (⟨1, 1, (30 : ℚ) * 0.10⟩ :: rest) := by
  have h := postOrder_level1_payout exState ⟨some 30, some "AAA", none⟩ 2
    30 "AAA" userA rfl (by norm_num) rfl (by decide) rfl
  simpa [exState, userA] using h

/-- Claim C6: zero-amount commissions are never recorded — in every state
reachable by any sequence of requests, every record in the commissions
list has `amount > 0`; in particular an ancestor whose schedule index is
beyond the defined levels (a 4th ancestor's entry would have amount
`orderAmount × 0`) never causes an append to the commission log. -/
theorem run_commissions_pos (reqs : List Request) :
    ∀ c ∈ (run reqs).commissions, 0 < c.amount :=
  foldl_step_commissions_pos reqs initialState (by simp [initialState])

/-- Claim C6 witness: after signing user A up and placing an order of
amount 100 on `"AAA"`, the logged commission `{1, 1, 1, 0.10, 10}` has a
positive amount. -/
theorem run_commissions_pos_witness :
    (0 : ℚ) < (⟨1, 1, 1, 0.10, 10⟩ : Commission).amount := by
  refine run_commissions_pos exReqs ⟨1, 1, 1, 0.10, 10⟩ ?_
  have h1 : run exReqs =
      (postOrder ⟨[userA], [], [], []⟩ ⟨some 100, some "AAA", none⟩ 1).2 := rfl
  rw [h1, postOrder_ok_eq ⟨[userA], [], [], []⟩ ⟨some 100, some "AAA", none⟩ 1
        100 "AAA" userA rfl (by norm_num) rfl (by decide) rfl]
  rw [if_pos (by norm_num : (0 : ℚ) < 100 * 0.10)]
  have e : (100 : ℚ) * 0.10 = 10 := by norm_num
  simp [userA, buildUpline, uplineEntries_nil, e, orNull]

/-- Claim C7, counterexample: user E's referrer code `"ZZZ"` resolves to
no user; the order `{amount: -7, code: "EEE"}` passes validation and
succeeds with a 200 response, but its payouts array is empty — it does
not contain the level-1 entry, because `-7 × 0.10 > 0` fails. -/
theorem postOrder_broken_chain_negative_amount :
    (postOrder exState ⟨some (-7), some "EEE", none⟩ 0).1 =
      OrderResp.ok 1 (-7) "EEE" [] := by
  rw [postOrder_ok_eq exState ⟨some (-7), some "EEE", none⟩ 0 (-7) "EEE"
        userE rfl (by norm_num) rfl (by decide) rfl]
  rw [if_neg (by norm_num : ¬ ((0 : ℚ) < (-7) * 0.10))]
  rfl

/-- Claim C7 (amended): for every successful order of positive amount
whose code owner's `referrerCode` does not resolve to any user in the
directory (broken chain), the upline walk terminates immediately, no
error is raised, the response is a normal 200, and the payouts array
contains only the level-1 entry. -/
theorem postOrder_broken_chain (st : AppState) (req : OrderReq) (now : Nat)
    (a : ℚ) (c : String) (owner : User) (rc : String)
    (hamt : req.amount = some a) (hpos : 0 < a)
    (hcode : req.code = some c) (hc : c ≠ "")
    (hfind : findUserByCode st.users c = some owner)
    (href : owner.referrerCode = some rc)
    (hbroken : findUserByCode st.users rc = none) :
    buildUpline st.users owner.referrerCode COMMISSION_LEVELS.length = [] ∧
    (postOrder st req now).1 =
      OrderResp.ok (st.orders.length + 1) a c [⟨owner.id, 1, a * 0.10⟩] := by
  have hup : buildUpline st.users owner.referrerCode 3 = [] := by
    rw [href]
    by_cases hrc : rc = ""
    · subst hrc
      simp [buildUpline, orNull]
    · simp [buildUpline, orNull, hrc, hbroken]
  refine ⟨hup, ?_⟩
  rw [postOrder_ok_eq st req now a c owner hamt hpos.ne' hcode hc hfind, hup]
  rw [if_pos (by nlinarith : (0 : ℚ) < a * 0.10)]
  simp [uplineEntries_nil]

/-- Claim C7 witness: an order of amount 40 on `"EEE"` (referrer `"ZZZ"`
unknown) gets an empty upline and the single payout `{5, 1, 4}`. -/
theorem postOrder_broken_chain_witness :
    buildUpline exState.users userE.referrerCode COMMISSION_LEVELS.length = [] ∧
    (postOrder exState ⟨some 40, some "EEE", none⟩ 3).1 =
      OrderResp.ok 1 40 "EEE" [⟨5, 1, 4⟩] := by
  have h := postOrder_broken_chain exState ⟨some 40, some "EEE", none⟩ 3
    40 "EEE" userE "ZZZ" rfl (by norm_num) rfl (by decide) rfl rfl rfl
  have e : (40 : ℚ) * 0.10 = 4 := by norm_num
  simpa [exState, userE, e] using h

/-- Claim C8, counterexample: the order `{amount: -50, code: "AAA"}` on
the referrer-less user A passes validation and succeeds, but its payouts
array has 0 entries, not exactly 1: the level-1 push guard
`-50 × 0.10 > 0` fails. -/
theorem postOrder_no_referrer_negative_amount :
    (postOrder exState ⟨some (-50), some "AAA", none⟩ 0).1 =
      OrderResp.ok 1 (-50) "AAA" [] := by
  rw [postOrder_ok_eq exState ⟨some (-50), some "AAA", none⟩ 0 (-50) "AAA"
        userA rfl (by norm_num) rfl (by decide) rfl]
  rw [if_neg (by norm_num : ¬ ((0 : ℚ) < (-50) * 0.10))]
  rfl

/-- Claim C8 (amended): for every successful order of positive amount
whose code owner has no referrer (`referrerCode` null), the payouts
array has exactly 1 entry, at level 1. -/
theorem postOrder_no_referrer (st : AppState) (req : OrderReq) (now : Nat)
    (a : ℚ) (c : String) (owner : User)
    (hamt : req.amount = some a) (hpos : 0 < a)
    (hcode : req.code = some c) (hc : c ≠ "")
    (hfind : findUserByCode st.users c = some owner)
    (href : owner.referrerCode = none) :
    (postOrder st req now).1 =
      OrderResp.ok (st.orders.length + 1) a c [⟨owner.id, 1, a * 0.10⟩] := by
  rw [postOrder_ok_eq st req now a c owner hamt hpos.ne' hcode hc hfind]
  have hup : buildUpline st.users owner.referrerCode 3 = [] := by
    rw [href]
    simp [buildUpline, orNull]
  rw [hup, if_pos (by nlinarith : (0 : ℚ) < a * 0.10)]
  simp [uplineEntries_nil]

/-- Claim C8 witness: the spec scenario — an order of amount 50 on
`"AAA"` (no upline) yields payouts `[{A, 1, 5}]`. -/
theorem postOrder_no_referrer_witness :
    (postOrder exState ⟨some 50, some "AAA", none⟩ 4).1 =
      OrderResp.ok 1 50 "AAA" [⟨1, 1, 5⟩] := by
  have h := postOrder_no_referrer exState ⟨some 50, some "AAA", none⟩ 4
    50 "AAA" userA rfl (by norm_num) rfl (by decide) rfl rfl
  have e : (50 : ℚ) * 0.10 = 5 := by norm_num
  simpa [exState, userA, e] using h

/-- Claim C9: `POST /order` is atomic on error — whenever the response is
400 (missing field) or 404 (unknown referral code), the orders list and
the commissions list are exactly as they were before the request. -/
theorem postOrder_error_atomic (st : AppState) (req : OrderReq) (now : Nat)
    (h : (postOrder st req now).1 = OrderResp.badRequest ∨
         (postOrder st req now).1 = OrderResp.notFound) :
    (postOrder st req now).2.orders = st.orders ∧
    (postOrder st req now).2.commissions = st.commissions := by
  unfold postOrder at h ⊢
  split at h
  case isTrue hcond =>
    rw [if_pos hcond]
    exact ⟨rfl, rfl⟩
  case isFalse hcond =>
    rw [if_neg hcond]
    dsimp only at h ⊢
    cases hf : findUserByCode st.users (req.code.getD "") with
    | none => exact ⟨rfl, rfl⟩
    | some owner =>
      rw [hf] at h
      rcases h with h | h <;> simp at h

/-- Claim C9 witness: a request with no amount leaves the example state's
orders and commissions untouched. -/
theorem postOrder_error_atomic_witness :
    (postOrder exState ⟨none, some "AAA", none⟩ 0).2.orders = exState.orders ∧
    (postOrder exState ⟨none, some "AAA", none⟩ 0).2.commissions =
      exState.commissions :=
  postOrder_error_atomic exState ⟨none, some "AAA", none⟩ 0 (Or.inl rfl)

/-- Both amounts of each pushed upline pair sum below `0.07 × amount` for
a nonnegative amount and an upline of at most 3 members (the percents hit
are at most `0.05` and `0.02`; from the third member on the percent is
`0`). -/
theorem uplineEntries_amount_sum_le (oid : Nat) (a : ℚ) (up : List User)
    (hnn : 0 ≤ a) (hlen : up.length ≤ 3) :
    ((uplineEntries oid a up).map (fun cp => cp.1.amount)).sum ≤ a * 0.07 ∧
    ((uplineEntries oid a up).map (fun cp => cp.2.amount)).sum ≤ a * 0.07 := by
  rcases up with - | ⟨u1, up⟩
  · constructor <;> · simp [uplineEntries_nil]; nlinarith
  rcases up with - | ⟨u2, up⟩
  · constructor <;>
      · simp only [uplineEntries, List.enum, List.enumFrom, COMMISSION_LEVELS,
          List.filterMap, List.getD, List.get?, List.map]
        split_ifs <;> simp <;> nlinarith
  rcases up with - | ⟨u3, up⟩
  · constructor <;>
      · simp only [uplineEntries, List.enum, List.enumFrom, COMMISSION_LEVELS,
          List.filterMap, List.getD, List.get?, List.map]
        split_ifs <;> simp <;> nlinarith
  rcases up with - | ⟨u4, up⟩
  · constructor <;>
      · simp only [uplineEntries, List.enum, List.enumFrom, COMMISSION_LEVELS,
          List.filterMap, List.getD, List.get?, List.map]
        split_ifs <;> simp <;> nlinarith
  · simp at hlen

/-- Claim C10: for every successful order with nonnegative amount, the sum
of the payout amounts returned — equally, of the commission amounts
appended for that order — is at most `0.17 ×` the order amount
(`0.10 + 0.05 + 0.02`), regardless of the shape of the referral graph. -/
theorem postOrder_payout_sum_le (st : AppState) (req : OrderReq) (now : Nat)
    (a : ℚ) (oid : Nat) (amt : ℚ) (c : String) (ps : List Payout)
    (hamt : req.amount = some a) (hnn : 0 ≤ a)
    (hok : (postOrder st req now).1 = OrderResp.ok oid amt c ps) :
    (ps.map Payout.amount).sum ≤ 0.17 * a ∧
    (((postOrder st req now).2.commissions.drop st.commissions.length).map
        Commission.amount).sum ≤ 0.17 * a := by
  by_cases ha : a = 0
  · have hbad : (postOrder st req now).1 = OrderResp.badRequest := by
      unfold postOrder
      rw [if_pos (by simp [numTruthy, hamt, ha])]
    rw [hbad] at hok
    exact absurd hok (by simp)
  rcases hcode : req.code with - | c'
  · have hbad : (postOrder st req now).1 = OrderResp.badRequest := by
      unfold postOrder
      rw [if_pos (by simp [strTruthy, hcode])]
    rw [hbad] at hok
    exact absurd hok (by simp)
  by_cases hc : c' = ""
  · subst hc
    have hbad : (postOrder st req now).1 = OrderResp.badRequest := by
      unfold postOrder
      rw [if_pos (by simp [strTruthy, hcode])]
    rw [hbad] at hok
    exact absurd hok (by simp)
  cases hf : findUserByCode st.users c' with
  | none =>
    have hnf : (postOrder st req now).1 = OrderResp.notFound := by
      unfold postOrder
      rw [if_neg (by simp [numTruthy, strTruthy, hamt, hcode, ha, hc])]
      dsimp only
      split
      · rfl
      case _ owner' hf' =>
        simp only [hcode, Option.getD_some] at hf'
        rw [hf] at hf'
        exact Option.noConfusion hf'
    rw [hnf] at hok
    exact absurd hok (by simp)
  | some owner =>
    rw [postOrder_ok_eq st req now a c' owner hamt ha hcode hc hf] at hok ⊢
    dsimp only at hok ⊢
    injection hok with h1 h2 h3 h4
    subst h4
    have hupl := uplineEntries_amount_sum_le (st.orders.length + 1) a
      (buildUpline st.users owner.referrerCode 3) hnn
      (buildUpline_length_le st.users owner.referrerCode 3)
    constructor
    · rw [List.map_append, List.sum_append]
      have hl1 : (((if 0 < a * (0.10 : ℚ) then
            [(⟨owner.id, 1, a * 0.10⟩ : Payout)]
          else []).map Payout.amount)).sum ≤ a * 0.10 := by
        split_ifs <;> simp <;> nlinarith
      have hsnd :
          (((uplineEntries (st.orders.length + 1) a
              (buildUpline st.users owner.referrerCode 3)).map Prod.snd).map
            Payout.amount).sum ≤ a * 0.07 := by
        rw [List.map_map]
        exact hupl.2
      calc _ ≤ a * 0.10 + a * 0.07 := add_le_add hl1 hsnd
        _ = 0.17 * a := by ring
    · rw [List.drop_left, List.map_append, List.sum_append]
      have hl1 : (((if 0 < a * (0.10 : ℚ) then
            [(⟨st.orders.length + 1, owner.id, 1, 0.10,
                a * 0.10⟩ : Commission)]
          else []).map Commission.amount)).sum ≤ a * 0.10 := by
        split_ifs <;> simp <;> nlinarith
      have hfst :
          (((uplineEntries (st.orders.length + 1) a
              (buildUpline st.users owner.referrerCode 3)).map Prod.fst).map
            Commission.amount).sum ≤ a * 0.07 := by
        rw [List.map_map]
        exact hupl.1
      calc _ ≤ a * 0.10 + a * 0.07 := add_le_add hl1 hfst
        _ = 0.17 * a := by ring

/-- Claim C10 witness: the order of amount 100 on `"DDD"` (chain
D → C → B → A) pays out 10 + 5 + 2 = 17 ≤ 0.17 × 100. -/
theorem postOrder_payout_sum_le_witness :
    (([⟨4, 1, 10⟩, ⟨3, 2, 5⟩, ⟨2, 3, 2⟩] : List Payout).map
        Payout.amount).sum ≤ (0.17 : ℚ) * 100 := by
  have hok : (postOrder exState ⟨some 100, some "DDD", none⟩ 0).1 =
      OrderResp.ok 1 100 "DDD" [⟨4, 1, 10⟩, ⟨3, 2, 5⟩, ⟨2, 3, 2⟩] := by
    rw [postOrder_ok_eq exState ⟨some 100, some "DDD", none⟩ 0 100 "DDD" userD
          rfl (by norm_num) rfl (by decide) rfl]
    rw [buildUpline_cons exState.users userD.referrerCode 2 "CCC" userC rfl rfl,
        buildUpline_cons exState.users userC.referrerCode 1 "BBB" userB rfl rfl,
        buildUpline_cons exState.users userB.referrerCode 0 "AAA" userA rfl rfl]
    rw [show buildUpline exState.users userA.referrerCode 0 = [] from rfl]
    rw [uplineEntries_triple (exState.orders.length + 1) 100 userC userB userA
          (by norm_num)]
    rw [if_pos (by norm_num : (0 : ℚ) < 100 * 0.10)]
    have e1 : (100 : ℚ) * 0.10 = 10 := by norm_num
    have e2 : (100 : ℚ) * 0.05 = 5 := by norm_num
    have e3 : (100 : ℚ) * 0.02 = 2 := by norm_num
    simp [exState, userA, userB, userC, userD, e1, e2, e3]
  exact (postOrder_payout_sum_le exState ⟨some 100, some "DDD", none⟩ 0
    100 1 100 "DDD" [⟨4, 1, 10⟩, ⟨3, 2, 5⟩, ⟨2, 3, 2⟩] rfl (by norm_num) hok).1

end MLM
